import Mathlib

/-!
Verification of the session-segmentation and ranked-list comparison core of
the `utils` repository (`utils/web.py`, `utils/rankings.py`).

Conventions of the embedding:
* pandas Series/columns become Lean `List`s; a missing value (`NaN`) in a
  numeric or object column becomes `none` in a `List (Option _)`.
* timestamps and real-valued scores are modelled as exact rationals `ℚ`
  (the Python code works on floats; none of the verified claims depends on
  float rounding of the inputs themselves).
* Python exceptions become `Except PyErr _` results.
* `np.random`-driven choices (the alphanumeric symbol assignment in
  `rankings.compare_ranks`) are abstracted into an explicit assignment
  function parameter; invariance over all injective assignments is proved
  separately.
-/

-- Errors raised by the Python code paths that the claims exercise.
inductive PyErr : Type
  /-- Python `ZeroDivisionError` (float division by zero). -/
  | zeroDivision : PyErr
  /-- Python `ValueError`, raised by `np.random.choice(..., replace=False)`
  when the requested sample is larger than the population. -/
  | valueError : PyErr
  /-- Python `NameError`, raised in Python 3 when the undefined name
  `unicode` is looked up (`rankings.py` line 114). -/
  | nameError : PyErr
deriving DecidableEq, Repr

-- Sessions (utils/web.py) -----------------------------------------------------

/-- Embeds `get_interrow_interval` composed with the column layout used by
`get_sessions`: `user['time_diff'] = user[tvar].diff()...`.  `diff()` of a
series is `none` at the first row and `ts[i] - ts[i-1]` afterwards. -/
def timeDiffs (ts : List ℚ) : List (Option ℚ) :=
  match ts with
  | [] => []
  | _ :: _ => none :: (ts.zip ts.tail).map (fun p => some (p.2 - p.1))

/-- Embeds the elementwise comparison `user.time_diff > session_delimiter`
(web.py line 231).  In pandas, `NaN > x` is `False`, so the first row (whose
`time_diff` is `NaN`) never flags a session boundary. -/
def boolSesh (thr : ℚ) : Option ℚ → Bool
  | none => false
  | some d => decide (thr < d)

/-- Embeds web.py line 235: the positional indices at which
`bool_sesh` is `True` (the candidate session cut points). -/
def sessionCutPoints (ts : List ℚ) (thr : ℚ) : List ℕ :=
  ((timeDiffs ts).enum.filter (fun p => boolSesh thr p.2)).map Prod.fst

/-- Embeds `pd.cut(x, bins=[-inf] + cuts + [inf], right=False, labels=False)`
(web.py lines 236-240) for strictly increasing `cuts`: with left-closed
intervals and infinite outer edges, the 0-based bin code of a value `x` is
the number of interior edges that are `≤ x`. -/
def pdCutBin (cuts : List ℕ) (x : ℕ) : ℕ :=
  cuts.countP (fun c => decide (c ≤ x))

/-- Embeds the `user['session']` column of `get_sessions` (web.py lines
230-240): the rows are indexed `0..n-1` by `reset_index`, and each index is
binned by `pd.cut` against the session cut points. -/
def sessionIds (ts : List ℚ) (thr : ℚ) : List ℕ :=
  (List.range ts.length).map (pdCutBin (sessionCutPoints ts thr))

/-- Embeds `series.shift(-1)` on an already-nullable column: every row takes
the value of its successor and the last row becomes `NaN` (web.py line 248,
`user['time_diff'].shift(-1)`). -/
def pdShiftNeg (l : List (Option ℚ)) : List (Option ℚ) :=
  match l with
  | [] => []
  | _ :: t => t ++ [none]

/-- Embeds the `user['time_elapsed']` column of `get_sessions` (web.py line
248). -/
def timeElapsed (ts : List ℚ) : List (Option ℚ) :=
  pdShiftNeg (timeDiffs ts)

/-- Embeds `series.shift()` on a possibly-null key column: a `NaN` is
prepended and the last value dropped. -/
def pdShift {β : Type} (keys : List (Option β)) : List (Option β) :=
  match keys with
  | [] => []
  | _ :: _ => none :: keys.dropLast

/-- Embeds pandas elementwise `==` on possibly-null values: `NaN` compares
unequal to everything, including another `NaN`. -/
def pdEqSeries {β : Type} [DecidableEq β] (a b : Option β) : Bool :=
  match a, b with
  | some x, some y => decide (x = y)
  | _, _ => false

/-- Embeds `get_sequential_duplicates` (web.py lines 196-199), Series case:
`series.shift() == series`. -/
def get_sequential_duplicates {β : Type} [DecidableEq β]
    (keys : List (Option β)) : List Bool :=
  List.zipWith pdEqSeries (pdShift keys) keys

/-- Embeds `user.groupby((session != session.shift()).cumsum()).cumcount() + 1`
(web.py lines 243-245): the 1-based position of each row within its maximal
run of equal consecutive values.  (The cumulative sum of change flags is
constant exactly on maximal runs, so the groups are the maximal runs.)
`prev` is the previous value, `cnt` the running count within the current
run. -/
def runIdx : Option ℕ → ℕ → List ℕ → List ℕ
  | _, _, [] => []
  | prev, cnt, x :: rest =>
    match prev with
    | some p =>
      if p = x then (cnt + 1) :: runIdx (some x) (cnt + 1) rest
      else 1 :: runIdx (some x) 1 rest
    | none => 1 :: runIdx (some x) 1 rest

/-- An input row of the single-entity event table handed to `get_sessions`:
the timestamp column `tvar` plus all caller-supplied columns, which the
function never inspects except (optionally) through a dedupe-key column; the
latter is modelled as a projection out of the opaque payload. -/
structure EventRow (α : Type) : Type where
  ts : ℚ
  payload : α

/-- An output row of `get_sessions`: the input row plus the derived columns
(`index` and `bool_sesh` are deleted before returning). -/
structure SessionRow (α : Type) : Type where
  ts : ℚ
  payload : α
  time_diff : Option ℚ
  seq_dupe : Option Bool
  session : ℕ
  session_idx : ℕ
  time_elapsed : Option ℚ

/-- Embeds `get_sessions` (web.py lines 205-254).  `dupe` is `none` when
`dupe_col=''` (the default) and `some f` when a dedupe-key column is
configured, `f` projecting the (possibly null) key out of the payload.
`user.sort_values(tvar)` is modelled by a mergesort on the timestamp; pandas'
default `kind='quicksort'` guarantees the same multiset and ordering by
timestamp but NOT stability on ties, so no claim about tie order is derived
from this model.  Each output row joins the sorted input row with the derived
column values at its positional index. -/
def get_sessions {α β : Type} [DecidableEq β] (user : List (EventRow α))
    (dupe : Option (α → Option β)) (thr : ℚ) : List (SessionRow α) :=
  let sorted := user.mergeSort (fun a b => decide (a.ts ≤ b.ts))
  let ts := sorted.map EventRow.ts
  let diffs := timeDiffs ts
  let seqd : List (Option Bool) :=
    match dupe with
    | none => List.replicate sorted.length none
    | some f => (get_sequential_duplicates (sorted.map (fun r => f r.payload))).map some
  let sess := sessionIds ts thr
  let sidx := runIdx none 0 sess
  let elapsed := pdShiftNeg diffs
  List.zipWith
    (fun r i =>
      ⟨r.ts, r.payload, diffs.getD i none, seqd.getD i none,
       sess.getD i 0, sidx.getD i 0, elapsed.getD i none⟩)
    sorted (List.range sorted.length)

-- Rankings (utils/rankings.py) ------------------------------------------------

/-- Embeds `alphanumerics()` (rankings.py lines 19-21):
`string.ascii_letters + string.digits`, 62 symbols. -/
def alphanumerics : List Char :=
  "abcdefghijklmnopqrstuvwxyzABCDEFGHIJKLMNOPQRSTUVWXYZ0123456789".toList

/-- Embeds Python's `round` applied to an exact rational value: round to
`digits` decimal places with ties going to the even digit (banker's
rounding).  (CPython rounds the nearest binary double; on the exact
intersection-over-union ratios at issue here the two agree on the stated
examples, and the claims quantify over the exact rational semantics.) -/
def roundHalfEven (q : ℚ) : ℤ :=
  if q - ⌊q⌋ = (1 : ℚ) / 2 then (if ⌊q⌋ % 2 = 0 then ⌊q⌋ else ⌊q⌋ + 1)
  else round q

/-- Rounds a rational to a number of decimal digits, Python-`round` style. -/
def pyRound (q : ℚ) (digits : ℕ) : ℚ :=
  (roundHalfEven (q * 10 ^ digits) : ℚ) / 10 ^ digits

/-- Embeds `jaccard_index` (rankings.py lines 60-69): both lists are
collapsed to sets; the result is `|intersection| / |union|` rounded to
`digits` places.  When both lists are empty the union is empty and Python
raises `ZeroDivisionError` at the division `float(0)/float(0)`. -/
def jaccard_index {α : Type} [DecidableEq α] (list1 list2 : List α)
    (digits : ℕ) : Except PyErr ℚ :=
  let inter := list1.toFinset ∩ list2.toFinset
  let union := list1.toFinset ∪ list2.toFinset
  if union.card = 0 then Except.error PyErr.zeroDivision
  else Except.ok (pyRound ((inter.card : ℚ) / (union.card : ℚ)) digits)

/-- Embeds `rank_as_string` (rankings.py lines 42-57) with the symbol
dictionary modelled as a function: each ranked item is replaced by its
assigned symbol, preserving order and duplicates. -/
def rank_as_string {α γ : Type} (list1 : List α) (alphanum_index : α → γ) :
    List γ :=
  list1.map alphanum_index

/-- Embeds `compare_ranks` (rankings.py lines 72-119) as it executes under
Python 3 (the package declares `python_requires>=3.6`):
1. `j = jaccard_index(list1, list2)` — may raise `ZeroDivisionError`;
2. `generate_alphanum_dict(union)` calls
   `np.random.choice(62_symbols, len(union), replace=False)`, which raises
   `ValueError` when the union has more than 62 distinct items;
3. `strings = map(...)` builds a lazy iterator, then
   `damerau_levenshtein_distance(unicode(strings[0]), unicode(strings[1]))`
   looks up the name `unicode`, which does not exist in Python 3, raising
   `NameError` (and `strings[0]` would be a `TypeError` anyway, a `map`
   object not being subscriptable) — so every call that passes steps 1-2
   still fails.
The union's cardinality is `(list1 ++ list2).dedup.length`. -/
def compare_ranks {α : Type} [DecidableEq α] (list1 list2 : List α) :
    Except PyErr (ℚ × ℕ) :=
  match jaccard_index list1 list2 3 with
  | Except.error e => Except.error e
  | Except.ok _ =>
    if alphanumerics.length < ((list1 ++ list2).dedup).length then
      Except.error PyErr.valueError
    else
      Except.error PyErr.nameError

-- Damerau-Levenshtein distance (jellyfish dependency) --------------------------

/-- Embeds `defaultdict(int)` lookup for the `da` dictionary of jellyfish's
`damerau_levenshtein_distance`: a missing key yields `0`.  The dictionary is
represented as an association list with newest bindings first, so lookup
takes the first match (Python assignment overwrites). -/
def dictGet {α : Type} [DecidableEq α] (da : List (α × ℕ)) (c : α) : ℕ :=
  match da with
  | [] => 0
  | p :: rest => if p.1 = c then p.2 else dictGet rest c

/-- Reads entry `(i, j)` of a score matrix stored as a list of rows. -/
def mget (m : List (List ℕ)) (i j : ℕ) : ℕ :=
  (m.getD i []).getD j 0

/-- Embeds the inner loop (`for j in range(1, len2+1)`) of jellyfish's
`damerau_levenshtein_distance`, the distance routine `compare_ranks` calls.
`score` holds the completed rows `0..i`; `acc` is the prefix of row `i+1`
built so far (initially `[infinite, i]`, matching the initialisation
`score[i+1][0] = infinite; score[i+1][1] = i`), `j` is the 1-based column,
`db` the last matching column in the current row.  Each step appends
`score[i+1][j+1] = min(score[i][j] + cost, score[i+1][j] + 1,
score[i][j+1] + 1, score[i1][j1] + (i-i1-1) + 1 + (j-j1-1))` where
`i1 = da[s2[j-1]]` and `j1 = db` before its update. -/
def dlRow {α : Type} [DecidableEq α] (da : List (α × ℕ))
    (score : List (List ℕ)) (c1 : α) (i : ℕ) :
    List α → ℕ → ℕ → List ℕ → List ℕ
  | [], _, _, acc => acc
  | c2 :: rest, j, db, acc =>
    let i1 := dictGet da c2
    let j1 := db
    let cost : ℕ := if c1 = c2 then 0 else 1
    let db' := if c1 = c2 then j else db
    let v := min (min (mget score i j + cost) (acc.getD j 0 + 1))
                 (min (mget score i (j + 1) + 1)
                      (mget score i1 j1 + (i - i1 - 1) + 1 + (j - j1 - 1)))
    dlRow da score c1 i rest (j + 1) db' (acc ++ [v])

/-- Embeds the outer loop (`for i in range(1, len1+1)`) of jellyfish's
`damerau_levenshtein_distance`: each iteration computes row `i+1` from the
matrix so far, appends it, and records `da[s1[i-1]] = i`. -/
def dlMain {α : Type} [DecidableEq α] (inf : ℕ) (s2 : List α) :
    List α → ℕ → List (α × ℕ) → List (List ℕ) → List (List ℕ)
  | [], _, _, score => score
  | c1 :: rest, i, da, score =>
    dlMain inf s2 rest (i + 1) ((c1, i) :: da)
      (score ++ [dlRow da score c1 i s2 1 0 [inf, i]])

/-- Embeds jellyfish's `damerau_levenshtein_distance` (the unrestricted
Damerau-Levenshtein distance): `infinite = len1 + len2`; row 0 is all
`infinite`; row 1 is `[infinite, 0, 1, ..., len2]`; the answer is
`score[len1+1][len2+1]`. -/
def damerau_levenshtein_distance {α : Type} [DecidableEq α]
    (s1 s2 : List α) : ℕ :=
  let inf := s1.length + s2.length
  let score0 := [List.replicate (s2.length + 2) inf,
                 inf :: List.range (s2.length + 1)]
  mget (dlMain inf s2 s1 1 [] score0) (s1.length + 1) (s2.length + 1)

/-- Models the symbol assignment produced by `generate_alphanum_dict`
(rankings.py lines 30-39) up to the random draw: a concrete injective
assignment sending each distinct item of the union to its index in the
de-duplicated concatenation.  `dl_rename_invariant` below proves the
computed distance is the same under every injective assignment, so this
stands for whichever assignment `np.random.choice` produces. -/
def canonicalIndex {α : Type} [DecidableEq α] (list1 list2 : List α)
    (x : α) : ℕ :=
  ((list1 ++ list2).dedup).indexOf x

/-- Modelled from the spec: `compare_ranks` as its docstring documents it
(returning `(jaccard, damerau_levenshtein_distance)`), i.e. the intended
semantics of rankings.py lines 109-119 once the Python-3 iterator/`unicode`
slip on line 114 is repaired (`strings = list(map(...))` and plain `str`);
the source as written always raises, see `compare_ranks`.  The random
symbol assignment is replaced by the canonical injective assignment. -/
def compare_ranks_fixed {α : Type} [DecidableEq α] (list1 list2 : List α) :
    Except PyErr (ℚ × ℕ) :=
  match jaccard_index list1 list2 3 with
  | Except.error e => Except.error e
  | Except.ok j =>
    if alphanumerics.length < ((list1 ++ list2).dedup).length then
      Except.error PyErr.valueError
    else
      Except.ok
        (j, damerau_levenshtein_distance
              (rank_as_string list1 (canonicalIndex list1 list2))
              (rank_as_string list2 (canonicalIndex list1 list2)))

-- Ranking bias metrics (utils/rankings.py lines 125-155) -----------------------

/-- Embeds `np.mean` on a list of (non-null) scores. -/
def npMean (scores : List ℚ) : ℚ :=
  scores.sum / scores.length

/-- Embeds `get_bias_till` (rankings.py lines 125-130) with the
rank-indexed dict flattened to the list of its values: entry `idx` (for
`idx` below `min till_rank n`, as produced by `enumerate(scores[:till_rank])`)
is `sum(scores[:idx+1]) / (idx+1)`, the running mean of the first `idx+1`
scores. -/
def get_bias_till (bias_scores : List ℚ) (till_rank : ℕ) : List ℚ :=
  (List.range (min till_rank bias_scores.length)).map
    (fun idx => ((bias_scores.take (idx + 1)).sum) / (idx + 1))

/-- Embeds `get_weighted_bias` (rankings.py lines 133-137): the mean of the
running prefix means. -/
def get_weighted_bias (bias_scores : List ℚ) : ℚ :=
  (get_bias_till bias_scores bias_scores.length).sum / bias_scores.length

/-- Embeds `get_ranking_bias` (rankings.py lines 140-141). -/
def get_ranking_bias (bias_scores : List ℚ) : ℚ :=
  get_weighted_bias bias_scores - npMean bias_scores

/-- Embeds the per-group columns computed by `get_bias` (rankings.py lines
144-155) for one group's already-null-filtered score list:
`(average_bias, weighted_bias, ranking_bias)`. -/
def bias_aggregation (bias_scores : List ℚ) : ℚ × ℚ × ℚ :=
  (npMean bias_scores, get_weighted_bias bias_scores,
   get_ranking_bias bias_scores)

deriving instance DecidableEq for Except

-- Lemmas: session segmentation ------------------------------------------------

theorem timeDiffs_length (ts : List ℚ) : (timeDiffs ts).length = ts.length := by
  cases ts with
  | nil => rfl
  | cons t rest =>
    simp [timeDiffs, List.length_zip]

theorem timeDiffs_head (t : ℚ) (rest : List ℚ) :
    timeDiffs (t :: rest) =
      none :: ((t :: rest).zip rest).map (fun p => some (p.2 - p.1)) := rfl

/-- The positional indices collected by filtering an enumeration, counted up
to a bound, agree with counting the predicate on a prefix of the underlying
list. -/
theorem enumFrom_filter_countP (p : Option ℚ → Bool) (l : List (Option ℚ)) :
    ∀ (k x : ℕ),
      (((List.enumFrom k l).filter (fun q => p q.2)).map Prod.fst).countP
          (fun c => decide (c ≤ x))
        = (l.take (x + 1 - k)).countP p := by
  induction l with
  | nil => intro k x; simp
  | cons a t ih =>
    intro k x
    by_cases hk : k ≤ x
    · have hx : x + 1 - k = (x - k) + 1 := by omega
      have hx2 : x + 1 - (k + 1) = x - k := by omega
      by_cases hp : p a = true
      · simp only [List.enumFrom, List.filter, hp, hx, List.take, List.map,
          List.countP_cons, ih (k + 1) x, hx2]
        simp [hp, hk]
      · simp only [List.enumFrom, List.filter, hp, hx, List.take,
          List.countP_cons, ih (k + 1) x, hx2]
        simp [hp]
    · have hx : x + 1 - k = 0 := by omega
      have hx2 : x + 1 - (k + 1) = 0 := by omega
      by_cases hp : p a = true
      · simp only [List.enumFrom, List.filter, hp, hx, List.map,
          List.countP_cons, List.take, ih (k + 1) x, hx2]
        simp
        omega
      · simp only [List.enumFrom, List.filter, hp, hx, List.take,
          List.countP_cons, ih (k + 1) x, hx2]

theorem getD_map_range (f : ℕ → ℕ) (n i : ℕ) (h : i < n) :
    ((List.range n).map f).getD i 0 = f i := by
  rw [List.getD_eq_getElem?_getD]
  simp [List.getElem?_map, List.getElem?_range, h]

/-- The `pd.cut`-assigned session id of row `i` equals the number of
boundary flags among the first `i + 1` time differences. -/
theorem sessionIds_eq_countP (ts : List ℚ) (thr : ℚ) (i : ℕ)
    (h : i < ts.length) :
    (sessionIds ts thr).getD i 0
      = ((timeDiffs ts).take (i + 1)).countP (boolSesh thr) := by
  rw [sessionIds, getD_map_range _ _ _ h]
  have h0 := enumFrom_filter_countP (boolSesh thr) (timeDiffs ts) 0 i
  simpa [pdCutBin, sessionCutPoints, List.enum] using h0

theorem countP_take_succ (p : Option ℚ → Bool) (l : List (Option ℚ))
    (i : ℕ) (h : i < l.length) :
    (l.take (i + 1)).countP p
      = (l.take i).countP p + (if p (l.getD i none) then 1 else 0) := by
  rw [List.take_succ, List.countP_append]
  have hsome : l[i]? = some (l.getD i none) := by
    rw [List.getD_eq_getElem?_getD]
    cases hx : l[i]? with
    | none =>
      rw [List.getElem?_eq_none_iff] at hx
      omega
    | some v => simp
  rw [hsome]
  by_cases hp : p (l.getD i none) <;>
    simp [hp, List.countP_cons, List.countP_nil]

/-- C1: on a single-entity event stream sorted ascending by timestamp, for
any idle threshold, the first record gets `session` 0; along the order the
`session` column is non-decreasing and steps by the boundary indicator; it
increases by exactly 1 at a record exactly when that record's `time_diff`
strictly exceeds the threshold, and a gap exactly equal to the threshold
never starts a new session. -/
theorem session_id_monotone_step (ts : List ℚ) (thr : ℚ)
    (hsort : ts.Sorted (· ≤ ·)) (hne : ts ≠ []) :
    (sessionIds ts thr).getD 0 0 = 0 ∧
    (∀ i, i + 1 < ts.length →
      (sessionIds ts thr).getD (i + 1) 0 =
        (sessionIds ts thr).getD i 0 +
          (if boolSesh thr ((timeDiffs ts).getD (i + 1) none) then 1 else 0)) ∧
    (∀ i, i + 1 < ts.length →
      (sessionIds ts thr).getD i 0 ≤ (sessionIds ts thr).getD (i + 1) 0) ∧
    (∀ i d, i + 1 < ts.length →
      (timeDiffs ts).getD (i + 1) none = some d →
      ((sessionIds ts thr).getD (i + 1) 0
          = (sessionIds ts thr).getD i 0 + 1 ↔ thr < d)) ∧
    (∀ i, i + 1 < ts.length →
      (timeDiffs ts).getD (i + 1) none = some thr →
      (sessionIds ts thr).getD (i + 1) 0 = (sessionIds ts thr).getD i 0) := by
  have hstep : ∀ i, i + 1 < ts.length →
      (sessionIds ts thr).getD (i + 1) 0 =
        (sessionIds ts thr).getD i 0 +
          (if boolSesh thr ((timeDiffs ts).getD (i + 1) none) then 1
           else 0) := by
    intro i hi
    rw [sessionIds_eq_countP ts thr (i + 1) hi,
        sessionIds_eq_countP ts thr i (by omega)]
    have hlen : i + 1 < (timeDiffs ts).length := by
      rw [timeDiffs_length]; exact hi
    exact countP_take_succ (boolSesh thr) (timeDiffs ts) (i + 1) hlen
  refine ⟨?_, hstep, ?_, ?_, ?_⟩
  · have h0 : 0 < ts.length := by
      cases ts with
      | nil => exact absurd rfl hne
      | cons t rest => simp
    rw [sessionIds_eq_countP ts thr 0 h0]
    cases ts with
    | nil => exact absurd rfl hne
    | cons t rest =>
      simp [timeDiffs, boolSesh, List.countP_cons]
  · intro i hi
    rw [hstep i hi]
    omega
  · intro i d hi hd
    rw [hstep i hi, hd]
    by_cases hlt : thr < d
    · simp [boolSesh, hlt]
    · simp [boolSesh, hlt]
  · intro i hi hd
    rw [hstep i hi, hd]
    simp [boolSesh]

/-- Witness for `session_id_monotone_step` at the stream
`[0, 3, 10]` with threshold `5`. -/
theorem session_id_monotone_step_witness :
    List.Sorted (· ≤ ·) ([0, 3, 10] : List ℚ) ∧
    ([0, 3, 10] : List ℚ) ≠ [] ∧
    ((sessionIds [0, 3, 10] 5).getD 0 0 = 0 ∧
    (∀ i, i + 1 < ([0, 3, 10] : List ℚ).length →
      (sessionIds [0, 3, 10] 5).getD (i + 1) 0 =
        (sessionIds [0, 3, 10] 5).getD i 0 +
          (if boolSesh 5 ((timeDiffs [0, 3, 10]).getD (i + 1) none) then 1
           else 0)) ∧
    (∀ i, i + 1 < ([0, 3, 10] : List ℚ).length →
      (sessionIds [0, 3, 10] 5).getD i 0
        ≤ (sessionIds [0, 3, 10] 5).getD (i + 1) 0) ∧
    (∀ i d, i + 1 < ([0, 3, 10] : List ℚ).length →
      (timeDiffs [0, 3, 10]).getD (i + 1) none = some d →
      ((sessionIds [0, 3, 10] 5).getD (i + 1) 0
          = (sessionIds [0, 3, 10] 5).getD i 0 + 1 ↔ 5 < d)) ∧
    (∀ i, i + 1 < ([0, 3, 10] : List ℚ).length →
      (timeDiffs [0, 3, 10]).getD (i + 1) none = some 5 →
      (sessionIds [0, 3, 10] 5).getD (i + 1) 0
        = (sessionIds [0, 3, 10] 5).getD i 0)) := by
  have hs : List.Sorted (· ≤ ·) ([0, 3, 10] : List ℚ) := by
    simp [List.sorted_cons]
    norm_num
  exact ⟨hs, by simp, session_id_monotone_step [0, 3, 10] 5 hs (by simp)⟩

/-- C2: on a sorted event stream, `time_elapsed[i] = time_diff[i+1]` for
every `i` below the last index, and that value is never null there — even
immediately before a session boundary — while `time_elapsed` at the last
record is null. -/
theorem time_elapsed_shift (ts : List ℚ) (hsort : ts.Sorted (· ≤ ·)) :
    (∀ i, i + 1 < ts.length →
      (timeElapsed ts).getD i none = (timeDiffs ts).getD (i + 1) none ∧
      ∃ d, (timeElapsed ts).getD i none = some d) ∧
    (ts ≠ [] → (timeElapsed ts).getD (ts.length - 1) none = none) := by
  cases ts with
  | nil =>
    constructor
    · intro i hi
      simp at hi
    · intro hne
      exact absurd rfl hne
  | cons t rest =>
    have hm : (((t :: rest).zip rest).map
        (fun p => some (p.2 - p.1))).length = rest.length := by
      simp [List.length_zip]
    constructor
    · intro i hi
      have hi' : i < rest.length := by
        simpa using hi
      have hte : timeElapsed (t :: rest)
          = ((t :: rest).zip rest).map (fun p => some (p.2 - p.1))
              ++ [none] := by
        simp [timeElapsed, timeDiffs, pdShiftNeg]
      have hleft : (timeElapsed (t :: rest)).getD i none
          = (((t :: rest).zip rest).map
              (fun p => some (p.2 - p.1))).getD i none := by
        rw [hte]
        exact List.getD_append _ _ _ _ (by omega)
      constructor
      · rw [hleft]
        rfl
      · rw [hleft, List.getD_eq_getElem _ _ (by omega)]
        simp only [List.getElem_map]
        exact ⟨_, rfl⟩
    · intro _
      have hte : timeElapsed (t :: rest)
          = ((t :: rest).zip rest).map (fun p => some (p.2 - p.1))
              ++ [none] := by
        simp [timeElapsed, timeDiffs, pdShiftNeg]
      rw [hte]
      have hlen : (t :: rest).length - 1
          = (((t :: rest).zip rest).map
              (fun p => some (p.2 - p.1))).length := by
        simp [List.length_zip]
      rw [hlen, List.getD_append_right _ _ _ _ (by omega)]
      simp

/-- Witness for `time_elapsed_shift` at the stream `[0, 3, 10]`. -/
theorem time_elapsed_shift_witness :
    List.Sorted (· ≤ ·) ([0, 3, 10] : List ℚ) ∧
    ((∀ i, i + 1 < ([0, 3, 10] : List ℚ).length →
      (timeElapsed [0, 3, 10]).getD i none
        = (timeDiffs [0, 3, 10]).getD (i + 1) none ∧
      ∃ d, (timeElapsed [0, 3, 10]).getD i none = some d) ∧
    (([0, 3, 10] : List ℚ) ≠ [] →
      (timeElapsed [0, 3, 10]).getD (([0, 3, 10] : List ℚ).length - 1) none
        = none)) := by
  have hs : List.Sorted (· ≤ ·) ([0, 3, 10] : List ℚ) := by
    simp [List.sorted_cons]
    norm_num
  exact ⟨hs, time_elapsed_shift [0, 3, 10] hs⟩

-- Theorems: rankings -----------------------------------------------------------

/-- C4: `jaccard_index` raises `ZeroDivisionError` exactly when both input
lists are empty; otherwise it returns the intersection-over-union of the
de-duplicated lists rounded to the configured digit count, never coercing
the undefined case to a number. -/
theorem jaccard_index_spec {α : Type} [DecidableEq α] (l1 l2 : List α)
    (digits : ℕ) :
    (jaccard_index l1 l2 digits = Except.error PyErr.zeroDivision
        ↔ (l1 = [] ∧ l2 = [])) ∧
    (¬(l1 = [] ∧ l2 = []) →
      jaccard_index l1 l2 digits =
        Except.ok (pyRound (((l1.toFinset ∩ l2.toFinset).card : ℚ)
          / ((l1.toFinset ∪ l2.toFinset).card : ℚ)) digits)) := by
  have hcard : (l1.toFinset ∪ l2.toFinset).card = 0 ↔ (l1 = [] ∧ l2 = []) := by
    rw [Finset.card_eq_zero, Finset.union_eq_empty,
        List.toFinset_eq_empty_iff, List.toFinset_eq_empty_iff]
  by_cases hc : (l1.toFinset ∪ l2.toFinset).card = 0
  · constructor
    · simp [jaccard_index, hc, hcard.mp hc]
    · intro hne
      exact absurd (hcard.mp hc) hne
  · constructor
    · constructor
      · intro h
        simp [jaccard_index, hc] at h
      · intro hb
        exact absurd (hcard.mpr hb) hc
    · intro _
      simp [jaccard_index, hc]

/-- Witness for `jaccard_index_spec` at `[1]`, `[]`, default digits 3. -/
theorem jaccard_index_spec_witness :
    (jaccard_index ([1] : List ℕ) [] 3 = Except.error PyErr.zeroDivision
        ↔ (([1] : List ℕ) = [] ∧ ([] : List ℕ) = [])) ∧
    (¬(([1] : List ℕ) = [] ∧ ([] : List ℕ) = []) →
      jaccard_index ([1] : List ℕ) [] 3 =
        Except.ok (pyRound
          (((([1] : List ℕ).toFinset ∩ ([] : List ℕ).toFinset).card : ℚ)
            / ((([1] : List ℕ).toFinset ∪ ([] : List ℕ).toFinset).card : ℚ))
          3)) :=
  jaccard_index_spec [1] [] 3

/-- C5: for a non-empty list of non-null bias scores, the aggregation
returns `average_bias` = the mean of the scores, `weighted_bias` = the mean
of the `n` running prefix means, and `ranking_bias` = their difference; on
`[1, 2, 3]` this is `(2, 1.5, -0.5)`. -/
theorem bias_aggregation_spec :
    (∀ scores : List ℚ, scores ≠ [] →
      bias_aggregation scores =
        (scores.sum / scores.length,
         (((List.range scores.length).map
             (fun k => (scores.take (k + 1)).sum / (k + 1))).sum)
           / scores.length,
         (((List.range scores.length).map
             (fun k => (scores.take (k + 1)).sum / (k + 1))).sum)
           / scores.length - scores.sum / scores.length)) ∧
    bias_aggregation [1, 2, 3] = (2, 3 / 2, -1 / 2) := by
  constructor
  · intro scores _
    simp [bias_aggregation, npMean, get_weighted_bias, get_ranking_bias,
      get_bias_till, min_self]
  · norm_num [bias_aggregation, npMean, get_weighted_bias, get_bias_till,
      get_ranking_bias, List.range_succ]

/-- Witness for `bias_aggregation_spec` at the scores `[1, 2, 3]`. -/
theorem bias_aggregation_spec_witness :
    ([1, 2, 3] : List ℚ) ≠ [] ∧
    bias_aggregation [1, 2, 3] =
      (([1, 2, 3] : List ℚ).sum / ([1, 2, 3] : List ℚ).length,
       (((List.range ([1, 2, 3] : List ℚ).length).map
           (fun k => (([1, 2, 3] : List ℚ).take (k + 1)).sum / (k + 1))).sum)
         / ([1, 2, 3] : List ℚ).length,
       (((List.range ([1, 2, 3] : List ℚ).length).map
           (fun k => (([1, 2, 3] : List ℚ).take (k + 1)).sum / (k + 1))).sum)
         / ([1, 2, 3] : List ℚ).length
         - ([1, 2, 3] : List ℚ).sum / ([1, 2, 3] : List ℚ).length) :=
  ⟨by simp, bias_aggregation_spec.1 [1, 2, 3] (by simp)⟩

theorem pdEqSeries_none_left {β : Type} [DecidableEq β] (b : Option β) :
    pdEqSeries none b = false := by
  cases b <;> rfl

/-- C10: on any non-empty key series — even one whose first key is null —
the sequential-duplicate flag of the first record is the boolean `false`
(never null, never true), since `shift()` places a `NaN` before it and
pandas `NaN == x` is `False`. -/
theorem get_sequential_duplicates_first {β : Type} [DecidableEq β]
    (keys : List (Option β)) (hne : keys ≠ []) :
    (get_sequential_duplicates keys).head? = some false := by
  cases keys with
  | nil => exact absurd rfl hne
  | cons k rest =>
    simp [get_sequential_duplicates, pdShift, pdEqSeries_none_left]

/-- Witness for `get_sequential_duplicates_first` on a series whose first
key is null. -/
theorem get_sequential_duplicates_first_witness :
    ([none, some 0] : List (Option ℕ)) ≠ [] ∧
    (get_sequential_duplicates ([none, some 0] : List (Option ℕ))).head?
      = some false :=
  ⟨by simp, get_sequential_duplicates_first [none, some 0] (by simp)⟩

/-- C3: on the docstring's own example, `compare_ranks` as written raises
`NameError` in Python 3 (`unicode` is undefined and `strings` is a
non-subscriptable `map` object), contradicting the documented return value
`(0.6, 3)`; the intended computation — the same pipeline with the
iterator/`unicode` slip repaired — does return Jaccard `3/5` and
Damerau-Levenshtein distance `3`. -/
theorem compare_ranks_doc_example :
    compare_ranks ["sam", "sue", "stew", "baloo", "baloo"]
        ["sue", "sam", "baloo", "new", "baloo"]
      = Except.error PyErr.nameError ∧
    compare_ranks_fixed ["sam", "sue", "stew", "baloo", "baloo"]
        ["sue", "sam", "baloo", "new", "baloo"]
      = Except.ok (3 / 5, 3) := by
  constructor
  · decide
  · have hi : ((["sam", "sue", "stew", "baloo", "baloo"] : List String).toFinset
        ∩ (["sue", "sam", "baloo", "new", "baloo"] : List String).toFinset).card
        = 3 := by decide
    have hu : ((["sam", "sue", "stew", "baloo", "baloo"] : List String).toFinset
        ∪ (["sue", "sam", "baloo", "new", "baloo"] : List String).toFinset).card
        = 5 := by decide
    have hdl : damerau_levenshtein_distance
        (rank_as_string ["sam", "sue", "stew", "baloo", "baloo"]
          (canonicalIndex ["sam", "sue", "stew", "baloo", "baloo"]
            ["sue", "sam", "baloo", "new", "baloo"]))
        (rank_as_string ["sue", "sam", "baloo", "new", "baloo"]
          (canonicalIndex ["sam", "sue", "stew", "baloo", "baloo"]
            ["sue", "sam", "baloo", "new", "baloo"])) = 3 := by decide
    rw [compare_ranks_fixed, jaccard_index]
    simp only [hi, hu]
    norm_num [hdl, pyRound, roundHalfEven, round_eq, Int.fract]
    intro h
    exact absurd h (by decide)

/-- C7 (amended): `compare_ranks` fails on every input under Python 3: with
`ZeroDivisionError` when both lists are empty, else with `ValueError`
(alphabet exhausted) when the union holds more than the 62 alphanumeric
symbols, and otherwise with `NameError` from the `unicode`/iterator slip —
so the alphabet-exhaustion failure occurs exactly when the union exceeds 62
distinct items and the lists are not both empty, and no call succeeds. -/
theorem compare_ranks_error_classification {α : Type} [DecidableEq α]
    (l1 l2 : List α) :
    compare_ranks l1 l2 = Except.error
      (if l1 = [] ∧ l2 = [] then PyErr.zeroDivision
       else if alphanumerics.length < (l1 ++ l2).dedup.length then
         PyErr.valueError
       else PyErr.nameError) := by
  have hcard : (l1.toFinset ∪ l2.toFinset).card = 0 ↔ (l1 = [] ∧ l2 = []) := by
    rw [Finset.card_eq_zero, Finset.union_eq_empty,
        List.toFinset_eq_empty_iff, List.toFinset_eq_empty_iff]
  by_cases hb : l1 = [] ∧ l2 = []
  · simp [compare_ranks, jaccard_index, hcard.mpr hb, hb]
  · have hc : ¬((l1.toFinset ∪ l2.toFinset).card = 0) := fun h =>
      hb (hcard.mp h)
    simp only [compare_ranks, jaccard_index, if_neg hc, if_neg hb]
    rw [apply_ite Except.error]

/-- Witness for `compare_ranks_error_classification` at `[0]`, `[0]`. -/
theorem compare_ranks_error_classification_witness :
    compare_ranks ([0] : List ℕ) [0] = Except.error
      (if ([0] : List ℕ) = [] ∧ ([0] : List ℕ) = [] then PyErr.zeroDivision
       else if alphanumerics.length < (([0] : List ℕ) ++ [0]).dedup.length then
         PyErr.valueError
       else PyErr.nameError) :=
  compare_ranks_error_classification [0] [0]

/-- C7 counterexample: with both lists empty the union has `0 ≤ 62`
distinct items, yet `compare_ranks` fails (`ZeroDivisionError`); and even
with a one-item union it fails (`NameError`), so failure is not equivalent
to the union exceeding the 62 available symbols, and a call with a small
union does not succeed. -/
theorem compare_ranks_not_iff_counterexample :
    (compare_ranks ([] : List ℕ) [] = Except.error PyErr.zeroDivision ∧
      ((([] : List ℕ) ++ []).dedup.length ≤ alphanumerics.length)) ∧
    (compare_ranks ([0] : List ℕ) [0] = Except.error PyErr.nameError ∧
      ((([0] : List ℕ) ++ [0]).dedup.length ≤ alphanumerics.length)) := by
  refine ⟨⟨by decide, by decide⟩, ⟨by decide, by decide⟩⟩

-- Theorems: frame property of get_sessions -------------------------------------

theorem zipWith_fst {γ δ ε : Type} (h : γ → ε) :
    ∀ (l : List γ) (l' : List δ), l.length ≤ l'.length →
      List.zipWith (fun a _ => h a) l l' = l.map h := by
  intro l
  induction l with
  | nil => intro l' _; rfl
  | cons a t ih =>
    intro l' hl
    cases l' with
    | nil => simp at hl
    | cons b t' =>
      simp only [List.zipWith_cons_cons, List.map_cons]
      rw [ih t' (by simpa using hl)]

/-- C9: `get_sessions` returns exactly one output row per input row,
reorders rows only by timestamp (the output timestamp column is sorted
ascending), and leaves every caller-supplied field unchanged: the multiset
of (timestamp, payload) pairs of the output equals that of the input. -/
theorem get_sessions_frame {α β : Type} [DecidableEq β]
    (user : List (EventRow α)) (dupe : Option (α → Option β)) (thr : ℚ) :
    (get_sessions user dupe thr).length = user.length ∧
    ((get_sessions user dupe thr).map (fun r => (r.ts, r.payload))).Perm
      (user.map (fun r => (r.ts, r.payload))) ∧
    List.Sorted (· ≤ ·) ((get_sessions user dupe thr).map SessionRow.ts) := by
  have hperm := List.mergeSort_perm user
    (fun a b : EventRow α => decide (a.ts ≤ b.ts))
  have htrans : ∀ a b c : EventRow α,
      decide (a.ts ≤ b.ts) = true → decide (b.ts ≤ c.ts) = true →
      decide (a.ts ≤ c.ts) = true := by
    intro a b c hab hbc
    simp only [decide_eq_true_eq] at hab hbc ⊢
    exact le_trans hab hbc
  have htotal : ∀ a b : EventRow α,
      (decide (a.ts ≤ b.ts) || decide (b.ts ≤ a.ts)) = true := by
    intro a b
    simp only [Bool.or_eq_true, decide_eq_true_eq]
    exact le_total a.ts b.ts
  have hsorted := @List.sorted_mergeSort (EventRow α)
    (fun a b => decide (a.ts ≤ b.ts)) htrans htotal user
  refine ⟨?_, ?_, ?_⟩
  · simp [get_sessions, List.length_zipWith, List.length_mergeSort]
  · have h1 : (get_sessions user dupe thr).map (fun r => (r.ts, r.payload))
        = (user.mergeSort (fun a b => decide (a.ts ≤ b.ts))).map
            (fun r => (r.ts, r.payload)) := by
      simp only [get_sessions]
      rw [List.map_zipWith]
      dsimp only
      exact zipWith_fst _ _ _ (le_of_eq (List.length_range _).symm)
    rw [h1]
    exact hperm.map _
  · have h2 : (get_sessions user dupe thr).map SessionRow.ts
        = (user.mergeSort (fun a b => decide (a.ts ≤ b.ts))).map
            EventRow.ts := by
      simp only [get_sessions]
      rw [List.map_zipWith]
      dsimp only
      exact zipWith_fst _ _ _ (le_of_eq (List.length_range _).symm)
    rw [h2]
    rw [List.Sorted, List.pairwise_map]
    exact hsorted.imp (fun h => of_decide_eq_true h)

-- Theorems: encoding-independence of the edit distance --------------------------

theorem dictGet_map {α σ : Type} [DecidableEq α] [DecidableEq σ]
    (f : α → σ) (L : List α)
    (hf : ∀ a ∈ L, ∀ b ∈ L, f a = f b → a = b) :
    ∀ (da : List (α × ℕ)), (∀ p ∈ da, p.1 ∈ L) → ∀ c ∈ L,
      dictGet (da.map (fun p => (f p.1, p.2))) (f c) = dictGet da c := by
  intro da
  induction da with
  | nil =>
    intro _ c _
    rfl
  | cons p rest ih =>
    intro hkeys c hc
    simp only [List.map_cons, dictGet]
    by_cases hpc : p.1 = c
    · simp [hpc]
    · have hfne : ¬(f p.1 = f c) := fun h =>
        hpc (hf p.1 (hkeys p (by simp)) c hc h)
      rw [if_neg hfne, if_neg hpc]
      exact ih (fun q hq => hkeys q (by simp [hq])) c hc

theorem dlRow_map {α σ : Type} [DecidableEq α] [DecidableEq σ]
    (f : α → σ) (L : List α)
    (hf : ∀ a ∈ L, ∀ b ∈ L, f a = f b → a = b)
    (da : List (α × ℕ)) (hda : ∀ p ∈ da, p.1 ∈ L)
    (score : List (List ℕ)) (c1 : α) (hc1 : c1 ∈ L) (i : ℕ) :
    ∀ (s2 : List α), (∀ c ∈ s2, c ∈ L) → ∀ (j db : ℕ) (acc : List ℕ),
      dlRow (da.map (fun p => (f p.1, p.2))) score (f c1) i (s2.map f)
          j db acc
        = dlRow da score c1 i s2 j db acc := by
  intro s2
  induction s2 with
  | nil =>
    intro _ j db acc
    rfl
  | cons c2 rest ih =>
    intro hs2 j db acc
    have hc2 : c2 ∈ L := hs2 c2 (by simp)
    have heq : (f c1 = f c2) ↔ (c1 = c2) :=
      ⟨fun h => hf c1 hc1 c2 hc2 h, fun h => by rw [h]⟩
    simp only [List.map_cons, dlRow]
    rw [dictGet_map f L hf da hda c2 hc2]
    simp only [heq]
    exact ih (fun c hcm => hs2 c (by simp [hcm])) (j + 1) _ _

theorem dlMain_map {α σ : Type} [DecidableEq α] [DecidableEq σ]
    (f : α → σ) (L : List α)
    (hf : ∀ a ∈ L, ∀ b ∈ L, f a = f b → a = b)
    (s2 : List α) (hs2 : ∀ c ∈ s2, c ∈ L) (inf : ℕ) :
    ∀ (s1 : List α), (∀ c ∈ s1, c ∈ L) →
      ∀ (i : ℕ) (da : List (α × ℕ)), (∀ p ∈ da, p.1 ∈ L) →
      ∀ (score : List (List ℕ)),
      dlMain inf (s2.map f) (s1.map f) i (da.map (fun p => (f p.1, p.2)))
          score
        = dlMain inf s2 s1 i da score := by
  intro s1
  induction s1 with
  | nil =>
    intro _ i da _ score
    rfl
  | cons c1 rest ih =>
    intro hs1 i da hda score
    have hc1 : c1 ∈ L := hs1 c1 (by simp)
    simp only [List.map_cons, dlMain]
    rw [dlRow_map f L hf da hda score c1 hc1 i s2 hs2 1 0 [inf, i]]
    have hcons : ((f c1, i) :: da.map (fun p => (f p.1, p.2)))
        = ((c1, i) :: da).map (fun p => (f p.1, p.2)) := rfl
    rw [hcons]
    exact ih (fun c hcm => hs1 c (by simp [hcm])) (i + 1) ((c1, i) :: da)
      (by
        intro p hp
        rcases List.mem_cons.mp hp with h | h
        · rw [h]; exact hc1
        · exact hda p h)
      (score ++ [dlRow da score c1 i s2 1 0 [inf, i]])

/-- Renaming the items of both lists by any function injective on their
union leaves the computed Damerau-Levenshtein distance unchanged: the
algorithm consults the symbols only through equality tests. -/
theorem dl_map_injective {α σ : Type} [DecidableEq α] [DecidableEq σ]
    (f : α → σ) (l1 l2 : List α)
    (hf : ∀ a ∈ l1 ++ l2, ∀ b ∈ l1 ++ l2, f a = f b → a = b) :
    damerau_levenshtein_distance (l1.map f) (l2.map f)
      = damerau_levenshtein_distance l1 l2 := by
  simp only [damerau_levenshtein_distance, List.length_map]
  have h := dlMain_map f (l1 ++ l2) hf l2
    (fun c hc => List.mem_append_right _ hc)
    (l1.length + l2.length) l1
    (fun c hc => List.mem_append_left _ hc)
    1 [] (by simp)
    [List.replicate (l2.length + 2) (l1.length + l2.length),
     (l1.length + l2.length) :: List.range (l2.length + 1)]
  simp only [List.map_nil] at h
  rw [h]

/-- C8: the edit-distance half of `compare_ranks` is independent of the
symbol assignment: for any two assignments that are injective on the items
of the two lists (as every `generate_alphanum_dict` draw over a
sufficiently large alphabet is), encoding both lists with either assignment
yields the same Damerau-Levenshtein distance — it depends only on the
structural equality pattern of the lists. -/
theorem compare_ranks_dist_assignment_independent {α : Type} [DecidableEq α]
    (l1 l2 : List α) (f g : α → Char)
    (hcap : (l1 ++ l2).dedup.length ≤ alphanumerics.length)
    (hf : ∀ a ∈ l1 ++ l2, ∀ b ∈ l1 ++ l2, f a = f b → a = b)
    (hg : ∀ a ∈ l1 ++ l2, ∀ b ∈ l1 ++ l2, g a = g b → a = b) :
    damerau_levenshtein_distance (rank_as_string l1 f) (rank_as_string l2 f)
      = damerau_levenshtein_distance (rank_as_string l1 g)
          (rank_as_string l2 g) := by
  rw [rank_as_string, rank_as_string, rank_as_string, rank_as_string,
      dl_map_injective f l1 l2 hf, dl_map_injective g l1 l2 hg]

/-- Witness for `compare_ranks_dist_assignment_independent` on the lists
`[0, 1]` and `[1, 2]` with two concrete injective symbol assignments. -/
theorem compare_ranks_dist_assignment_independent_witness :
    (([0, 1] ++ [1, 2] : List ℕ).dedup.length ≤ alphanumerics.length) ∧
    (∀ a ∈ ([0, 1] ++ [1, 2] : List ℕ), ∀ b ∈ ([0, 1] ++ [1, 2] : List ℕ),
      Char.ofNat (97 + a) = Char.ofNat (97 + b) → a = b) ∧
    (∀ a ∈ ([0, 1] ++ [1, 2] : List ℕ), ∀ b ∈ ([0, 1] ++ [1, 2] : List ℕ),
      Char.ofNat (66 + a) = Char.ofNat (66 + b) → a = b) ∧
    damerau_levenshtein_distance
        (rank_as_string [0, 1] (fun a => Char.ofNat (97 + a)))
        (rank_as_string [1, 2] (fun a => Char.ofNat (97 + a)))
      = damerau_levenshtein_distance
          (rank_as_string [0, 1] (fun a => Char.ofNat (66 + a)))
          (rank_as_string [1, 2] (fun a => Char.ofNat (66 + a))) :=
  ⟨by decide, by decide, by decide,
   compare_ranks_dist_assignment_independent [0, 1] [1, 2]
     (fun a => Char.ofNat (97 + a)) (fun a => Char.ofNat (66 + a))
     (by decide) (by decide) (by decide)⟩


